import Mathlib

/-!
# Verification of the leaderboard service core

Shallow embedding, in Lean 4, of the data model and operations of the
real-time leaderboard service: the `scores` table and its SQL queries
(`backend/db/sql/queries.sql`), the notification trigger
(`notify_score_change` in the migration), the business-logic `Service`
(`backend/internal/service/service.go`), the gRPC server's clamping and
broadcast fan-out (`backend/internal/grpc/listener.go`), and the
LISTEN/NOTIFY consumer loop (`backend/internal/notify/listener.go`).

The persistent `scores` table is modelled as a `List Score`; the primary key
on `player_name` is the hypothesis that the mapped list of names has no
duplicates.  Timestamps (`now()`, `updated_at`) are abstract instants
modelled as `Nat`; score values (`BIGINT`) are `Int`.
-/

namespace Leaderboard

/-- A row of the `scores` table:
`scores(player_name TEXT PRIMARY KEY, score BIGINT, updated_at TIMESTAMPTZ)`. -/
structure Score where
  playerName : String
  score : Int
  updatedAt : Nat
  deriving Repr, DecidableEq

/-- `GetPlayerScore` (queries.sql): `SELECT ... FROM scores WHERE player_name = $1`.
Returns the row keyed by `p`, if present. -/
def getPlayerScore (t : List Score) (p : String) : Option Score :=
  t.find? (fun e => e.playerName == p)

/-- The `DO UPDATE` arm of `UpsertScore` (queries.sql):
`score = GREATEST(EXCLUDED.score, scores.score)` and
`updated_at = CASE WHEN EXCLUDED.score > scores.score THEN now() ELSE scores.updated_at END`. -/
def upsertRow (now : Nat) (s : Int) (e : Score) : Score :=
  { e with
    score := max s e.score
    updatedAt := if e.score < s then now else e.updatedAt }

/-- `UpsertScore` (queries.sql): `INSERT INTO scores VALUES ($1, $2, now())
ON CONFLICT (player_name) DO UPDATE ... RETURNING player_name, score, updated_at`.
Returns the table after the statement together with the `RETURNING` row. -/
def upsertScore (t : List Score) (p : String) (s : Int) (now : Nat) :
    List Score × Score :=
  match getPlayerScore t p with
  | none => (t ++ [⟨p, s, now⟩], ⟨p, s, now⟩)
  | some e =>
      (t.map (fun r => if r.playerName == p then upsertRow now s r else r),
       upsertRow now s e)

/-- `DeleteScore` (queries.sql): `DELETE FROM scores WHERE player_name = $1`. -/
def deleteScore (t : List Score) (p : String) : List Score :=
  t.filter (fun e => !(e.playerName == p))

theorem find?_map_of_first {p : String} {t : List Score} {e : Score}
    (f : Score → Score)
    (hf : ∀ r, (r.playerName == p) = true → (f r).playerName = r.playerName)
    (h : t.find? (fun r => r.playerName == p) = some e) :
    (t.map (fun r => if r.playerName == p then f r else r)).find?
      (fun r => r.playerName == p) = some (f e) := by
  induction t with
  | nil => simp at h
  | cons a t ih =>
      cases ha : (a.playerName == p) with
      | true =>
          simp only [List.find?_cons, ha] at h
          obtain rfl := Option.some_inj.mp h
          have hfe : ((f a).playerName == p) = true := by
            rw [hf a ha]; exact ha
          simp only [List.map_cons, if_pos ha, List.find?_cons, hfe]
      | false =>
          simp only [List.find?_cons, ha] at h
          simp only [List.map_cons, List.find?_cons, ha, Bool.false_eq_true,
            if_false]
          exact ih h

/-- After an upsert, looking the player up returns exactly the `RETURNING` row. -/
theorem getPlayerScore_upsertScore (t : List Score) (p : String) (s : Int)
    (now : Nat) :
    getPlayerScore (upsertScore t p s now).1 p = some (upsertScore t p s now).2 := by
  unfold upsertScore
  cases h : getPlayerScore t p with
  | none =>
      unfold getPlayerScore at h ⊢
      simp only
      rw [List.find?_append, h]
      simp
  | some e =>
      unfold getPlayerScore at h ⊢
      simp only
      exact find?_map_of_first (upsertRow now s)
        (fun r _ => rfl) h

/-- C1. `UpsertScore` implements best-score-wins: after `Upsert(p, s)` the stored
entry for `p` is the `RETURNING` row; if no prior row existed it is `(p, s, now)`;
otherwise its score is `max s prior` and its `updated_at` is `now` exactly when
`s` strictly exceeds the prior score, else the prior `updated_at`; when the prior
`updated_at` differs from `now`, the stored `updated_at` equals `now` iff the
submitted score strictly improved the prior one. -/
theorem upsert_best_score_semantics (t : List Score) (p : String) (s : Int)
    (now : Nat) :
    getPlayerScore (upsertScore t p s now).1 p = some (upsertScore t p s now).2 ∧
    (getPlayerScore t p = none → (upsertScore t p s now).2 = ⟨p, s, now⟩) ∧
    (∀ e, getPlayerScore t p = some e →
      (upsertScore t p s now).2.score = max s e.score ∧
      (upsertScore t p s now).2.playerName = e.playerName ∧
      (upsertScore t p s now).2.updatedAt =
        (if e.score < s then now else e.updatedAt) ∧
      (e.updatedAt ≠ now →
        ((upsertScore t p s now).2.updatedAt = now ↔ e.score < s))) := by
  refine ⟨getPlayerScore_upsertScore t p s now, ?_, ?_⟩
  · intro h
    unfold upsertScore
    rw [h]
  · intro e he
    unfold upsertScore
    rw [he]
    refine ⟨rfl, rfl, rfl, ?_⟩
    intro hne
    by_cases hlt : e.score < s
    · simp [upsertRow, hlt]
    · simp only [upsertRow, if_neg hlt]
      exact iff_of_false hne hlt

/-- Witness for C1: a concrete run discharging every hypothesis.  Starting from a
table holding `Alice ↦ (100, t=1)`, upserting `(Alice, 50)` at `t=2` leaves the
score at `100` and the timestamp at `1`. -/
theorem upsert_best_score_semantics_witness :
    getPlayerScore [⟨"Alice", 100, 1⟩] "Alice" = some ⟨"Alice", 100, 1⟩ ∧
    (upsertScore [⟨"Alice", 100, 1⟩] "Alice" 50 2).2.score = max 50 100 ∧
    ((upsertScore [⟨"Alice", 100, 1⟩] "Alice" 50 2).2.updatedAt = 2 ↔
      (100 : Int) < 50) := by
  have h : getPlayerScore [(⟨"Alice", 100, 1⟩ : Score)] "Alice" =
      some ⟨"Alice", 100, 1⟩ := by decide
  obtain ⟨-, -, h3⟩ := upsert_best_score_semantics [⟨"Alice", 100, 1⟩] "Alice" 50 2
  obtain ⟨hs, -, -, hiff⟩ := h3 ⟨"Alice", 100, 1⟩ h
  exact ⟨h, hs, hiff (by decide)⟩

/-- Service errors (`service.go`): `ErrPlayerNotFound`, `ErrInvalidPlayerName`,
`ErrInvalidScore`, `ErrInvalidLimit`.  All but `playerNotFound` surface as
`InvalidArgument` on the gRPC wire. -/
inductive SvcError where
  | invalidPlayerName
  | invalidScore
  | invalidLimit
  | playerNotFound
  deriving Repr, DecidableEq

/-- `MaxPlayerNameLength = 20` (service.go). -/
def MaxPlayerNameLength : Nat := 20

/-- `MinPlayerNameLength = 1` (service.go). -/
def MinPlayerNameLength : Nat := 1

/-- The test of `Service.validatePlayerName` (service.go):
`len(name) < MinPlayerNameLength || len(name) > MaxPlayerNameLength`.
Go's `len` on a string counts UTF-8 bytes, hence `String.utf8ByteSize`. -/
def playerNameInvalid (name : String) : Bool :=
  decide (name.utf8ByteSize < MinPlayerNameLength) ||
    decide (MaxPlayerNameLength < name.utf8ByteSize)

/-- The test of `Service.validateScore` (service.go): `score < 0`. -/
def scoreInvalid (s : Int) : Bool :=
  decide (s < 0)

/-- `ScoreResult` (service.go). -/
structure ScoreResult where
  playerName : String
  score : Int
  updatedAt : Nat
  applied : Bool
  deriving Repr, DecidableEq

/-- `Service.SubmitScore` (service.go): validate the name, validate the score,
read the prior row, perform the upsert, and report
`applied := !hadScore || result.Score > oldScore`.  Validation failures return
before any store call, so the table is returned unchanged alongside the error. -/
def submitScore (t : List Score) (p : String) (s : Int) (now : Nat) :
    List Score × Except SvcError ScoreResult :=
  if playerNameInvalid p then (t, .error .invalidPlayerName)
  else if scoreInvalid s then (t, .error .invalidScore)
  else
    let prior := getPlayerScore t p
    let res := upsertScore t p s now
    let applied : Bool :=
      match prior with
      | none => true
      | some old => decide (old.score < res.2.score)
    (res.1, .ok ⟨res.2.playerName, res.2.score, res.2.updatedAt, applied⟩)

theorem map_id_of_mem {α : Type} {f : α → α} {l : List α}
    (h : ∀ a ∈ l, f a = a) : l.map f = l := by
  induction l with
  | nil => rfl
  | cons a l ih =>
      simp only [List.map_cons, h a (List.mem_cons_self a l)]
      rw [ih (fun b hb => h b (List.mem_cons_of_mem a hb))]

theorem upsertRow_eq_self {s : Int} {r : Score} (now : Nat) (h : s ≤ r.score) :
    upsertRow now s r = r := by
  unfold upsertRow
  have h1 : max s r.score = r.score := max_eq_right h
  have h2 : ¬ r.score < s := not_lt.mpr h
  cases r
  simp [h1, h2]

theorem upsertScore_key_scores (t : List Score) (p : String) (s : Int)
    (now : Nat) :
    ∀ r ∈ (upsertScore t p s now).1, (r.playerName == p) = true → s ≤ r.score := by
  unfold upsertScore
  cases h : getPlayerScore t p with
  | none =>
      intro r hr _
      rcases List.mem_append.mp hr with hr | hr
      · exact absurd ‹(r.playerName == p) = true›
          (by
            have := List.find?_eq_none.mp h r hr
            simpa using this)
      · obtain rfl : r = ⟨p, s, now⟩ := by simpa using hr
        exact le_refl s
  | some e =>
      intro r hr hkey
      obtain ⟨r₀, hr₀, rfl⟩ := List.mem_map.mp hr
      by_cases hk : (r₀.playerName == p) = true
      · simp only [if_pos hk, upsertRow]
        exact le_max_left _ _
      · simp only [if_neg hk] at hkey ⊢
        exact absurd hkey hk

theorem upsertScore_idem (t1 : List Score) (p : String) (s : Int) (now' : Nat)
    (e1 : Score) (he : getPlayerScore t1 p = some e1)
    (hge : ∀ r ∈ t1, (r.playerName == p) = true → s ≤ r.score) :
    upsertScore t1 p s now' = (t1, e1) := by
  have hmem : e1 ∈ t1 := List.mem_of_find?_eq_some he
  have hkey : (e1.playerName == p) = true := by
    have := List.find?_some he
    simpa using this
  have hmap : t1.map (fun r => if r.playerName == p then upsertRow now' s r else r)
      = t1 := by
    apply map_id_of_mem
    intro a ha
    by_cases hk : (a.playerName == p) = true
    · rw [if_pos hk]
      exact upsertRow_eq_self now' (hge a ha hk)
    · rw [if_neg hk]
  unfold upsertScore
  rw [he]
  show (t1.map (fun r => if r.playerName == p then upsertRow now' s r else r),
        upsertRow now' s e1) = (t1, e1)
  rw [hmap, upsertRow_eq_self now' (hge e1 hmem hkey)]

/-- C2. `SubmitScore` reports `applied` exactly when no prior row existed or the
submitted score strictly exceeds the prior one; and submitting the same
`(p, s)` again is a no-op: the second call leaves the table identical and
returns `applied = false`. -/
theorem submit_applied_iff_improved_and_idempotent
    (t : List Score) (p : String) (s : Int) (now now' : Nat)
    (hp : playerNameInvalid p = false) (hs : 0 ≤ s) :
    (∃ r, (submitScore t p s now).2 = Except.ok r ∧
      (r.applied = true ↔
        getPlayerScore t p = none ∨
        ∃ e, getPlayerScore t p = some e ∧ e.score < s)) ∧
    (submitScore (submitScore t p s now).1 p s now').1 =
      (submitScore t p s now).1 ∧
    (∃ r₂, (submitScore (submitScore t p s now).1 p s now').2 = Except.ok r₂ ∧
      r₂.applied = false) := by
  have hsc : scoreInvalid s = false := by
    simp [scoreInvalid, not_lt.mpr hs]
  have hrun1 : submitScore t p s now =
      ((upsertScore t p s now).1,
        .ok ⟨(upsertScore t p s now).2.playerName,
             (upsertScore t p s now).2.score,
             (upsertScore t p s now).2.updatedAt,
             match getPlayerScore t p with
             | none => true
             | some old => decide (old.score < (upsertScore t p s now).2.score)⟩) := by
    unfold submitScore
    rw [hp, hsc]
    simp
  have hfound : getPlayerScore (upsertScore t p s now).1 p
      = some (upsertScore t p s now).2 := getPlayerScore_upsertScore t p s now
  have hge := upsertScore_key_scores t p s now
  have hidem := upsertScore_idem (upsertScore t p s now).1 p s now'
      (upsertScore t p s now).2 hfound hge
  have hrun2 : submitScore (upsertScore t p s now).1 p s now' =
      ((upsertScore t p s now).1,
        .ok ⟨(upsertScore t p s now).2.playerName,
             (upsertScore t p s now).2.score,
             (upsertScore t p s now).2.updatedAt, false⟩) := by
    unfold submitScore
    rw [hp, hsc]
    simp only [Bool.false_eq_true, if_false, hidem, hfound]
    simp
  refine ⟨?_, ?_, ?_⟩
  · refine ⟨_, congrArg Prod.snd hrun1, ?_⟩
    cases h : getPlayerScore t p with
    | none => simp
    | some e =>
        unfold upsertScore
        rw [h]
        simp only [upsertRow, decide_eq_true_eq]
        constructor
        · intro hlt
          exact Or.inr ⟨e, rfl, (lt_max_iff.mp hlt).resolve_right (lt_irrefl _)⟩
        · rintro (hnone | ⟨e', he', hlt⟩)
          · exact absurd hnone (by simp)
          · obtain rfl := Option.some_inj.mp he'
            exact lt_max_iff.mpr (Or.inl hlt)
  · rw [hrun1]
    simp only
    rw [hrun2]
  · rw [hrun1]
    simp only
    rw [hrun2]
    exact ⟨_, rfl, rfl⟩

/-- Witness for C2: submitting `(Alice, 100)` to the empty table is applied, and
submitting it again changes nothing and is not applied. -/
theorem submit_applied_iff_improved_and_idempotent_witness :
    (∃ r, (submitScore [] "Alice" 100 1).2 = Except.ok r ∧
      (r.applied = true ↔
        getPlayerScore [] "Alice" = none ∨
        ∃ e, getPlayerScore [] "Alice" = some e ∧ e.score < 100)) ∧
    (submitScore (submitScore [] "Alice" 100 1).1 "Alice" 100 2).1 =
      (submitScore [] "Alice" 100 1).1 ∧
    (∃ r₂, (submitScore (submitScore [] "Alice" 100 1).1 "Alice" 100 2).2 =
      Except.ok r₂ ∧ r₂.applied = false) :=
  submit_applied_iff_improved_and_idempotent [] "Alice" 100 1 2
    (by decide) (by decide)

/-- C8. Boundary validation of `SubmitScore`: names of byte length 0 or 21 are
rejected with the invalid-player-name error and the table is untouched; names
of byte length 1 or 20 are accepted together with any non-negative score
(score 0 included); score `-1` is rejected with the invalid-score error and the
table is untouched. -/
theorem submit_validation_boundaries
    (t : List Score) (p : String) (s : Int) (now : Nat) :
    (p.utf8ByteSize = 0 ∨ p.utf8ByteSize = 21 →
      submitScore t p s now = (t, .error .invalidPlayerName)) ∧
    ((p.utf8ByteSize = 1 ∨ p.utf8ByteSize = 20) → 0 ≤ s →
      ∃ r, (submitScore t p s now).2 = .ok r) ∧
    ((p.utf8ByteSize = 1 ∨ p.utf8ByteSize = 20) →
      ∃ r, (submitScore t p 0 now).2 = .ok r) ∧
    (1 ≤ p.utf8ByteSize ∧ p.utf8ByteSize ≤ 20 →
      submitScore t p (-1) now = (t, .error .invalidScore)) := by
  have accept : ∀ s' : Int, playerNameInvalid p = false → 0 ≤ s' →
      ∃ r, (submitScore t p s' now).2 = .ok r := by
    intro s' hv hs'
    have hsc : scoreInvalid s' = false := by
      simp [scoreInvalid, not_lt.mpr hs']
    unfold submitScore
    rw [hv, hsc]
    simp
  have okname : (p.utf8ByteSize = 1 ∨ p.utf8ByteSize = 20) →
      playerNameInvalid p = false := by
    rintro (h | h) <;>
      simp [playerNameInvalid, MinPlayerNameLength, MaxPlayerNameLength, h]
  refine ⟨?_, ?_, ?_, ?_⟩
  · rintro (h | h) <;>
    · have hv : playerNameInvalid p = true := by
        simp [playerNameInvalid, MinPlayerNameLength, MaxPlayerNameLength, h]
      unfold submitScore
      rw [hv]
      simp
  · intro h1 hs'
    exact accept s (okname h1) hs'
  · intro h1
    exact accept 0 (okname h1) le_rfl
  · intro ⟨hlo, hhi⟩
    have hv : playerNameInvalid p = false := by
      simp [playerNameInvalid, MinPlayerNameLength, MaxPlayerNameLength]
      omega
    have hsc : scoreInvalid (-1 : Int) = true := by decide
    unfold submitScore
    rw [hv, hsc]
    simp

/-- Witness for C8: concrete boundary strings and scores.  The empty name and a
21-byte name are rejected, a 1-byte and a 20-byte name are accepted (with
scores 5 and 0), and score `-1` is rejected for a valid name. -/
theorem submit_validation_boundaries_witness :
    submitScore [] "" 5 0 = ([], .error .invalidPlayerName) ∧
    submitScore [] "123456789012345678901" 5 0 = ([], .error .invalidPlayerName) ∧
    (∃ r, (submitScore [] "A" 5 0).2 = .ok r) ∧
    (∃ r, (submitScore [] "12345678901234567890" 0 0).2 = .ok r) ∧
    submitScore [] "A" (-1) 0 = ([], .error .invalidScore) := by
  refine ⟨?_, ?_, ?_, ?_, ?_⟩
  · exact (submit_validation_boundaries [] "" 5 0).1 (Or.inl (by decide))
  · exact (submit_validation_boundaries [] "123456789012345678901" 5 0).1
      (Or.inr (by decide))
  · exact (submit_validation_boundaries [] "A" 5 0).2.1 (Or.inl (by decide))
      (by decide)
  · exact (submit_validation_boundaries [] "12345678901234567890" 0 0).2.2.1
      (Or.inr (by decide))
  · exact (submit_validation_boundaries [] "A" 5 0).2.2.2 ⟨by decide, by decide⟩

/-- The `player_name_length` CHECK constraint of the `scores` table (migration):
`char_length(player_name) <= 20 AND char_length(player_name) > 0`.
`char_length` counts characters, hence `String.length`. -/
def playerNameLengthCheck (name : String) : Bool :=
  decide (name.length ≤ 20) && decide (0 < name.length)

/-- The `score >= 0` CHECK constraint of the `scores` table (migration). -/
def scoreCheck (s : Int) : Bool :=
  decide (0 ≤ s)

/-- A 10-character player name made of ten 3-byte characters (U+3042). -/
def tenKana : String := "ああああああああああ"

theorem utf8Size_eq_one_of_ascii {c : Char} (h : c.toNat < 128) :
    c.utf8Size = 1 := by
  have hle : c.val ≤ UInt32.ofNatCore 127 Char.utf8Size.proof_1 := by
    rw [UInt32.le_def, BitVec.le_def]
    exact Nat.le_of_lt_succ h
  unfold Char.utf8Size
  exact if_pos hle

theorem utf8ByteSize_eq_length_of_ascii (p : String)
    (h : ∀ c ∈ p.data, c.toNat < 128) : p.utf8ByteSize = p.length := by
  cases p with
  | mk l =>
      show String.utf8ByteSize.go l = l.length
      induction l with
      | nil => rfl
      | cons c cs ih =>
          have hgo : String.utf8ByteSize.go (c :: cs)
              = String.utf8ByteSize.go cs + c.utf8Size := rfl
          rw [hgo, utf8Size_eq_one_of_ascii (h c (List.mem_cons_self c cs)),
            ih (fun d hd => h d (List.mem_cons_of_mem c hd))]
          rfl

/-- C10. The Service counts player-name length in UTF-8 bytes while the database
CHECK counts characters: on ASCII-only names the two validations agree, but the
10-character, 30-byte name `tenKana` is rejected by `SubmitScore` with the
invalid-player-name error even though it satisfies the storage constraint. -/
theorem name_length_bytes_vs_chars
    (p : String) (hascii : ∀ c ∈ p.data, c.toNat < 128) :
    (playerNameInvalid p = false ↔ playerNameLengthCheck p = true) ∧
    tenKana.length = 10 ∧
    tenKana.utf8ByteSize = 30 ∧
    playerNameLengthCheck tenKana = true ∧
    playerNameInvalid tenKana = true ∧
    (∀ t s now, submitScore t tenKana s now = (t, .error .invalidPlayerName)) := by
  have hkana : playerNameInvalid tenKana = true := by decide
  refine ⟨?_, by decide, by decide, by decide, hkana, ?_⟩
  · rw [playerNameInvalid, playerNameLengthCheck,
      utf8ByteSize_eq_length_of_ascii p hascii]
    simp only [MinPlayerNameLength, MaxPlayerNameLength, Bool.or_eq_false_iff,
      Bool.and_eq_true, decide_eq_false_iff_not, decide_eq_true_eq, not_lt]
    omega
  · intro t s now
    unfold submitScore
    rw [hkana]
    simp

/-- Witness for C10: the ASCII name `Alice` passes both checks, and the
multi-byte name diverges concretely. -/
theorem name_length_bytes_vs_chars_witness :
    (playerNameInvalid "Alice" = false ↔ playerNameLengthCheck "Alice" = true) ∧
    playerNameLengthCheck tenKana = true ∧
    playerNameInvalid tenKana = true ∧
    (submitScore [] tenKana 7 0 = ([], .error .invalidPlayerName)) := by
  obtain ⟨hiff, -, -, hdb, hsvc, hrej⟩ :=
    name_length_bytes_vs_chars "Alice" (by decide)
  exact ⟨hiff, hdb, hsvc, hrej [] 7 0⟩

/-- The JSON payload published by `pg_notify` on channel `scores_changes`
(migration): `{"player_name": ..., "score": ..., "op": "insert"|"update"|"delete"}`. -/
structure Notification where
  playerName : String
  score : Int
  op : String
  deriving Repr, DecidableEq

/-- PostgreSQL trigger operation kinds (`TG_OP`). -/
inductive TgOp where
  | INSERT
  | UPDATE
  | DELETE
  deriving Repr, DecidableEq

/-- The `notify_score_change()` trigger function (migration): on `DELETE`
publish the OLD row with op `delete`; on `INSERT` publish the NEW row with op
`insert`; on `UPDATE` publish the NEW row with op `update` only when
`NEW.score <> OLD.score`.  The returned list is the sequence of payloads
published for that one row-level trigger firing. -/
def notify_score_change (tg : TgOp) (oldRow newRow : Score) : List Notification :=
  match tg with
  | .DELETE => [⟨oldRow.playerName, oldRow.score, "delete"⟩]
  | .INSERT => [⟨newRow.playerName, newRow.score, "insert"⟩]
  | .UPDATE =>
      if newRow.score ≠ oldRow.score then
        [⟨newRow.playerName, newRow.score, "update"⟩]
      else []

/-- C3. One change event per committed row operation: an insert emits exactly
one `insert` payload with the new score, a delete exactly one `delete` payload
carrying the pre-delete score, and an update exactly one `update` payload iff
the persisted score changed (in either direction) and nothing otherwise; in
particular lowering Alice from 1000 to 500 emits one `update` carrying 500. -/
theorem trigger_change_emission (oldRow newRow : Score) :
    notify_score_change .INSERT oldRow newRow =
      [⟨newRow.playerName, newRow.score, "insert"⟩] ∧
    notify_score_change .DELETE oldRow newRow =
      [⟨oldRow.playerName, oldRow.score, "delete"⟩] ∧
    ((notify_score_change .UPDATE oldRow newRow).length = 1 ↔
      newRow.score ≠ oldRow.score) ∧
    (newRow.score ≠ oldRow.score →
      notify_score_change .UPDATE oldRow newRow =
        [⟨newRow.playerName, newRow.score, "update"⟩]) ∧
    (newRow.score = oldRow.score →
      notify_score_change .UPDATE oldRow newRow = []) ∧
    notify_score_change .UPDATE ⟨"Alice", 1000, 1⟩ ⟨"Alice", 500, 2⟩ =
      [⟨"Alice", 500, "update"⟩] := by
  refine ⟨rfl, rfl, ?_, ?_, ?_, by decide⟩
  · by_cases h : newRow.score = oldRow.score
    · simp [notify_score_change, h]
    · simp [notify_score_change, h]
  · intro h
    simp [notify_score_change, h]
  · intro h
    simp [notify_score_change, h]

/-- Witness for C3: the admin decrease scenario, a fresh insert and an update
that leaves the score unchanged, at concrete rows. -/
theorem trigger_change_emission_witness :
    notify_score_change .INSERT ⟨"Bob", 0, 0⟩ ⟨"Bob", 800, 3⟩ =
      [⟨"Bob", 800, "insert"⟩] ∧
    notify_score_change .UPDATE ⟨"Bob", 800, 3⟩ ⟨"Bob", 800, 3⟩ = [] ∧
    notify_score_change .UPDATE ⟨"Alice", 1000, 1⟩ ⟨"Alice", 500, 2⟩ =
      [⟨"Alice", 500, "update"⟩] := by
  obtain ⟨hins, -, -, -, -, hlow⟩ :=
    trigger_change_emission (⟨"Bob", 0, 0⟩ : Score) ⟨"Bob", 800, 3⟩
  obtain ⟨-, -, -, -, hsame, -⟩ :=
    trigger_change_emission (⟨"Bob", 800, 3⟩ : Score) ⟨"Bob", 800, 3⟩
  exact ⟨hins, hsame rfl, hlow⟩

/-- Strict `<` on player names, computed on the underlying character lists
(PostgreSQL compares `TEXT` lexicographically). -/
def strLtB (a b : String) : Bool :=
  decide (a.data < b.data)

/-- Non-strict name order: `a ≤ b ↔ ¬ b < a`. -/
def strLeB (a b : String) : Bool :=
  !(strLtB b a)

theorem strLtB_iff {a b : String} : strLtB a b = true ↔ a < b := by
  rw [strLtB, decide_eq_true_iff]
  exact String.lt_iff_toList_lt.symm

theorem strLeB_iff {a b : String} : strLeB a b = true ↔ a ≤ b := by
  rw [strLeB, Bool.not_eq_true', ← Bool.not_eq_true, strLtB_iff, not_lt]

/-- The `ORDER BY score DESC, player_name ASC` comparison (queries.sql and the
`idx_scores_leaderboard` index): `a` sorts no later than `b`. -/
def leaderboardLE (a b : Score) : Bool :=
  decide (b.score < a.score) ||
    (a.score == b.score && strLeB a.playerName b.playerName)

/-- `GetTopScores` (queries.sql): rows in leaderboard order, after `OFFSET $2`,
at most `LIMIT $1` of them. -/
def getTopScores (t : List Score) (limit offset : Int) : List Score :=
  ((t.mergeSort leaderboardLE).drop offset.toNat).take limit.toNat

/-- `Service.GetTopScores` (service.go): rejects a non-positive limit and a
negative offset with `ErrInvalidLimit`, otherwise delegates to the store. -/
def serviceGetTopScores (t : List Score) (limit offset : Int) :
    Except SvcError (List Score) :=
  if limit ≤ 0 then .error .invalidLimit
  else if offset < 0 then .error .invalidLimit
  else .ok (getTopScores t limit offset)

/-- `DEFAULT_LIMIT` (config.go, default 10). -/
def defaultLimit : Int := 10

/-- `MAX_LIMIT` (config.go, default 100). -/
def maxLimit : Int := 100

/-- `Server.GetTopScores` (gRPC server): substitute the default when
`limit <= 0`, cap at the maximum, clamp a negative offset to 0, then call the
service. -/
def serverGetTopScores (t : List Score) (limit offset : Int) :
    Except SvcError (List Score) :=
  let l1 := if limit ≤ 0 then defaultLimit else limit
  let l2 := if maxLimit < l1 then maxLimit else l1
  let o := if offset < 0 then 0 else offset
  serviceGetTopScores t l2 o

/-- C7. The gRPC `GetTopScores` clamps the requested limit into `[1, 100]`
(default 10 when non-positive, 100 when above 100), clamps a negative offset
to 0, and always returns a page instead of failing; in particular `limit = 0`
yields the default page size 10 and `limit = 200` yields 100. -/
theorem server_get_top_clamps (t : List Score) (limit offset : Int) :
    serverGetTopScores t limit offset =
      .ok (getTopScores t
        (if limit ≤ 0 then 10 else if 100 < limit then 100 else limit)
        (if offset < 0 then 0 else offset)) ∧
    1 ≤ (if limit ≤ 0 then 10 else if 100 < limit then (100 : Int) else limit) ∧
    (if limit ≤ 0 then 10 else if 100 < limit then (100 : Int) else limit) ≤ 100 ∧
    0 ≤ (if offset < 0 then (0 : Int) else offset) ∧
    serverGetTopScores t 0 offset =
      .ok (getTopScores t 10 (if offset < 0 then 0 else offset)) ∧
    serverGetTopScores t 200 offset =
      .ok (getTopScores t 100 (if offset < 0 then 0 else offset)) := by
  have key : ∀ lim : Int, serverGetTopScores t lim offset =
      .ok (getTopScores t
        (if lim ≤ 0 then 10 else if 100 < lim then 100 else lim)
        (if offset < 0 then 0 else offset)) := by
    intro lim
    have hofs : ¬ (if offset < 0 then (0 : Int) else offset) < 0 := by
      by_cases ho : offset < 0 <;> simp [ho] <;> omega
    unfold serverGetTopScores serviceGetTopScores
    unfold defaultLimit maxLimit
    by_cases h1 : lim ≤ 0
    · simp only [if_pos h1]
      norm_num
      exact fun hco => absurd hco hofs
    · simp only [if_neg h1]
      by_cases h2 : (100 : Int) < lim
      · simp only [if_pos h2]
        norm_num
        exact fun hco => absurd hco hofs
      · simp only [if_neg h2]
        have h1' : ¬ lim ≤ 0 := h1
        simp only [if_neg h1', if_neg hofs]
  refine ⟨key limit, ?_, ?_, ?_, ?_, ?_⟩
  · by_cases h1 : limit ≤ 0
    · simp [h1]
    · by_cases h2 : (100 : Int) < limit <;> simp [h1, h2] <;> omega
  · by_cases h1 : limit ≤ 0
    · simp [h1]
    · by_cases h2 : (100 : Int) < limit <;> simp [h1, h2] <;> omega
  · by_cases ho : offset < 0 <;> simp [ho] <;> omega
  · have := key 0
    norm_num at this
    simpa using this
  · have := key 200
    norm_num at this
    simpa using this

/-- The strict leaderboard precedence: strictly higher score first, ties broken
by the lexicographically smaller player name. -/
def Better (a b : Score) : Prop :=
  b.score < a.score ∨ (a.score = b.score ∧ a.playerName < b.playerName)

theorem leaderboardLE_iff {a b : Score} :
    leaderboardLE a b = true ↔
      (b.score < a.score ∨ (a.score = b.score ∧ a.playerName ≤ b.playerName)) := by
  simp only [leaderboardLE, Bool.or_eq_true, Bool.and_eq_true,
    decide_eq_true_eq, beq_iff_eq, strLeB_iff]

theorem leaderboardLE_total (a b : Score) :
    (leaderboardLE a b || leaderboardLE b a) = true := by
  rw [Bool.or_eq_true, leaderboardLE_iff, leaderboardLE_iff]
  rcases lt_trichotomy a.score b.score with h | h | h
  · exact Or.inr (Or.inl h)
  · rcases le_total a.playerName b.playerName with hn | hn
    · exact Or.inl (Or.inr ⟨h, hn⟩)
    · exact Or.inr (Or.inr ⟨h.symm, hn⟩)
  · exact Or.inl (Or.inl h)

theorem leaderboardLE_trans (a b c : Score) (h1 : leaderboardLE a b = true)
    (h2 : leaderboardLE b c = true) : leaderboardLE a c = true := by
  rw [leaderboardLE_iff] at h1 h2 ⊢
  rcases h1 with h1 | ⟨h1e, h1n⟩ <;> rcases h2 with h2 | ⟨h2e, h2n⟩
  · exact Or.inl (lt_trans h2 h1)
  · exact Or.inl (h2e ▸ h1)
  · exact Or.inl (lt_of_lt_of_le h2 (le_of_eq h1e.symm))
  · exact Or.inr ⟨h1e.trans h2e, le_trans h1n h2n⟩

/-- C6. For every table whose player names are distinct (the `player_name`
primary key) and for every limit and offset, the `GetTopScores` page is
strictly decreasing in the order (score descending, name ascending as
tiebreak), and no player name appears twice in it. -/
theorem get_top_sorted_and_nodup (t : List Score) (limit offset : Int)
    (hnd : (t.map Score.playerName).Nodup) :
    (getTopScores t limit offset).Pairwise Better ∧
    ((getTopScores t limit offset).map Score.playerName).Nodup := by
  have hsorted : (t.mergeSort leaderboardLE).Pairwise
      (fun a b => leaderboardLE a b = true) :=
    List.sorted_mergeSort leaderboardLE_trans leaderboardLE_total t
  have hperm : (t.mergeSort leaderboardLE).Perm t :=
    List.mergeSort_perm t _
  have hnd' : ((t.mergeSort leaderboardLE).map Score.playerName).Nodup :=
    ((hperm.map Score.playerName).nodup_iff).mpr hnd
  have hne : (t.mergeSort leaderboardLE).Pairwise
      (fun a b => a.playerName ≠ b.playerName) :=
    List.pairwise_map.mp hnd'
  have hBetter : (t.mergeSort leaderboardLE).Pairwise Better := by
    refine (hsorted.and hne).imp ?_
    rintro a b ⟨hle, hname⟩
    rcases leaderboardLE_iff.mp hle with h | ⟨he, hn⟩
    · exact Or.inl h
    · exact Or.inr ⟨he, lt_of_le_of_ne hn hname⟩
  have hsub : List.Sublist (getTopScores t limit offset)
      (t.mergeSort leaderboardLE) :=
    (List.take_sublist _ _).trans (List.drop_sublist _ _)
  refine ⟨hBetter.sublist hsub, hnd'.sublist (hsub.map Score.playerName)⟩

/-- Witness for C6: the tie-break scenario with Bob, Alice and Charlie all at
score 500 (distinct names discharged concretely). -/
theorem get_top_sorted_and_nodup_witness :
    (getTopScores [⟨"Bob", 500, 1⟩, ⟨"Alice", 500, 2⟩, ⟨"Charlie", 500, 3⟩]
        10 0).Pairwise Better ∧
    ((getTopScores [⟨"Bob", 500, 1⟩, ⟨"Alice", 500, 2⟩, ⟨"Charlie", 500, 3⟩]
        10 0).map Score.playerName).Nodup :=
  get_top_sorted_and_nodup
    [⟨"Bob", 500, 1⟩, ⟨"Alice", 500, 2⟩, ⟨"Charlie", 500, 3⟩] 10 0 (by decide)

/-- `GetPlayerRank` (queries.sql): `SELECT 1 + COUNT(*) FROM scores s1 WHERE
s1.score > (score of $1) OR (s1.score = (score of $1) AND s1.player_name < $1)`.
When `$1` has no row the correlated subquery is NULL, no row satisfies the
WHERE clause, and the query returns 1. -/
def getPlayerRank (t : List Score) (p : String) : Int :=
  match getPlayerScore t p with
  | none => 1
  | some e =>
      1 + ((t.filter (fun q =>
        decide (e.score < q.score) ||
          (q.score == e.score && strLtB q.playerName p))).length : Int)

theorem getPlayerScore_name {t : List Score} {p : String} {e : Score}
    (h : getPlayerScore t p = some e) : e.playerName = p := by
  have := List.find?_some h
  simpa using this

theorem getPlayerScore_mem {t : List Score} {p : String} {e : Score}
    (h : getPlayerScore t p = some e) : e ∈ t :=
  List.mem_of_find?_eq_some h

theorem getPlayerScore_self {t : List Score}
    (hnd : (t.map Score.playerName).Nodup) {e : Score} (he : e ∈ t) :
    getPlayerScore t e.playerName = some e := by
  induction t with
  | nil => simp at he
  | cons a t ih =>
      rcases List.mem_cons.mp he with rfl | hmem
      · unfold getPlayerScore
        simp [List.find?_cons]
      · have hnd' : (t.map Score.playerName).Nodup :=
          (List.nodup_cons.mp hnd).2
        have hfalse : (a.playerName == e.playerName) = false := by
          rw [beq_eq_false_iff_ne]
          intro hk'
          have : a.playerName ∈ t.map Score.playerName := by
            rw [hk']
            exact List.mem_map_of_mem Score.playerName hmem
          exact (List.nodup_cons.mp hnd).1 this
        unfold getPlayerScore
        simp only [List.find?_cons, hfalse]
        exact ih hnd' hmem

theorem name_injective {t : List Score}
    (hnd : (t.map Score.playerName).Nodup) {a b : Score}
    (ha : a ∈ t) (hb : b ∈ t) (hname : a.playerName = b.playerName) : a = b := by
  have h1 := getPlayerScore_self hnd ha
  have h2 := getPlayerScore_self hnd hb
  rw [hname] at h1
  rw [h1] at h2
  exact Option.some_inj.mp h2

instance decidableBetter (a b : Score) : Decidable (Better a b) := by
  unfold Better
  infer_instance

theorem better_trans {a b c : Score} (h1 : Better a b) (h2 : Better b c) :
    Better a c := by
  unfold Better at *
  rcases h1 with h1 | ⟨h1e, h1n⟩ <;> rcases h2 with h2 | ⟨h2e, h2n⟩
  · exact Or.inl (lt_trans h2 h1)
  · exact Or.inl (h2e ▸ h1)
  · exact Or.inl (lt_of_lt_of_le h2 (le_of_eq h1e.symm))
  · exact Or.inr ⟨h1e.trans h2e, lt_trans h1n h2n⟩

theorem better_irrefl (a : Score) : ¬ Better a a := by
  unfold Better
  simp

theorem better_trichotomy {a b : Score} (hne : a.playerName ≠ b.playerName) :
    Better a b ∨ Better b a := by
  unfold Better
  rcases lt_trichotomy a.score b.score with h | h | h
  · exact Or.inr (Or.inl h)
  · rcases lt_trichotomy a.playerName b.playerName with hn | hn | hn
    · exact Or.inl (Or.inr ⟨h, hn⟩)
    · exact absurd hn hne
    · exact Or.inr (Or.inr ⟨h.symm, hn⟩)
  · exact Or.inl (Or.inl h)

/-- Count of rows strictly preceding `e` in the leaderboard order. -/
def nBetter (t : List Score) (e : Score) : Nat :=
  (t.filter (fun q => decide (Better q e))).length

theorem bool_eq_of_iff {x y : Bool} (h : x = true ↔ y = true) : x = y := by
  cases x <;> cases y <;> simp_all

theorem getPlayerRank_eq_nBetter {t : List Score} {p : String} {e : Score}
    (he : getPlayerScore t p = some e) :
    getPlayerRank t p = 1 + (nBetter t e : Int) := by
  have hp := getPlayerScore_name he
  have hfilter : (t.filter (fun q =>
      decide (e.score < q.score) ||
        (q.score == e.score && strLtB q.playerName p)))
      = t.filter (fun q => decide (Better q e)) := by
    apply List.filter_congr
    intro q _
    apply bool_eq_of_iff
    simp only [Bool.or_eq_true, Bool.and_eq_true, decide_eq_true_eq,
      beq_iff_eq, strLtB_iff, Better, hp]
  unfold getPlayerRank nBetter
  rw [he]
  show 1 + ((t.filter (fun q =>
      decide (e.score < q.score) ||
        (q.score == e.score && strLtB q.playerName p))).length : Int) = _
  rw [hfilter]

theorem nBetter_eq_card (t : List Score) (ht : t.Nodup) (e : Score) :
    nBetter t e = (t.toFinset.filter (fun q => Better q e)).card := by
  unfold nBetter
  rw [← List.toFinset_card_of_nodup (ht.filter _), List.toFinset_filter]
  congr 1
  apply Finset.filter_congr
  intro q _
  simp

theorem nBetter_lt_of_better {t : List Score}
    (hnd : (t.map Score.playerName).Nodup) {a b : Score}
    (ha : a ∈ t) (h : Better a b) : nBetter t a < nBetter t b := by
  have ht : t.Nodup := List.Nodup.of_map _ hnd
  rw [nBetter_eq_card t ht a, nBetter_eq_card t ht b]
  apply Finset.card_lt_card
  rw [Finset.ssubset_iff_of_subset]
  · exact ⟨a, Finset.mem_filter.mpr ⟨List.mem_toFinset.mpr ha, h⟩,
      fun hmem => better_irrefl a (Finset.mem_filter.mp hmem).2⟩
  · intro q hq
    obtain ⟨hqt, hqa⟩ := Finset.mem_filter.mp hq
    exact Finset.mem_filter.mpr ⟨hqt, better_trans hqa h⟩

theorem nBetter_lt_length {t : List Score} (ht : t.Nodup) {e : Score}
    (he : e ∈ t) : nBetter t e < t.length := by
  rw [nBetter_eq_card t ht e, ← List.toFinset_card_of_nodup ht]
  apply Finset.card_lt_card
  rw [Finset.ssubset_iff_of_subset (Finset.filter_subset _ _)]
  exact ⟨e, List.mem_toFinset.mpr he,
    fun hmem => better_irrefl e (Finset.mem_filter.mp hmem).2⟩

/-- C5. For every table with distinct player names, the rank of a present
player `p` with row `e` equals one plus the number of rows that beat `e`
(strictly higher score, or equal score and lexicographically smaller name);
ranks are at least 1 and at most the table size, injective over the table's
rows (deterministic under ties), and every value in `[1, |t|]` is attained
(dense). -/
theorem rank_formula_dense_deterministic (t : List Score)
    (hnd : (t.map Score.playerName).Nodup) :
    (∀ p e, getPlayerScore t p = some e →
      getPlayerRank t p =
        1 + ((t.filter (fun q =>
          decide (e.score < q.score ∨
            (q.score = e.score ∧ q.playerName < p)))).length : Int) ∧
      1 ≤ getPlayerRank t p ∧ getPlayerRank t p ≤ (t.length : Int)) ∧
    (∀ e₁ ∈ t, ∀ e₂ ∈ t,
      getPlayerRank t e₁.playerName = getPlayerRank t e₂.playerName →
        e₁ = e₂) ∧
    (∀ k : Int, 1 ≤ k → k ≤ (t.length : Int) →
      ∃ e ∈ t, getPlayerRank t e.playerName = k) := by
  classical
  have ht : t.Nodup := List.Nodup.of_map _ hnd
  refine ⟨?_, ?_, ?_⟩
  · intro p e he
    have h1 := getPlayerRank_eq_nBetter he
    have hfilter : t.filter (fun q =>
        decide (e.score < q.score ∨ (q.score = e.score ∧ q.playerName < p)))
        = t.filter (fun q => decide (Better q e)) := by
      apply List.filter_congr
      intro q _
      apply bool_eq_of_iff
      simp only [decide_eq_true_eq, Better, getPlayerScore_name he]
    refine ⟨?_, ?_, ?_⟩
    · rw [h1, hfilter]
      rfl
    · rw [h1]
      omega
    · rw [h1]
      have := nBetter_lt_length ht (getPlayerScore_mem he)
      omega
  · intro a ha b hb hr
    by_contra hneq
    have hname : a.playerName ≠ b.playerName :=
      fun h => hneq (name_injective hnd ha hb h)
    rw [getPlayerRank_eq_nBetter (getPlayerScore_self hnd ha),
      getPlayerRank_eq_nBetter (getPlayerScore_self hnd hb)] at hr
    rcases better_trichotomy hname with h | h
    · have := nBetter_lt_of_better hnd ha h
      omega
    · have := nBetter_lt_of_better hnd hb h
      omega
  · intro k h1 h2
    have hinj : Set.InjOn (fun e => 1 + (nBetter t e : Int)) ↑t.toFinset := by
      intro a ha b hb hab
      have ha' : a ∈ t := List.mem_toFinset.mp ha
      have hb' : b ∈ t := List.mem_toFinset.mp hb
      by_contra hneq
      have hname : a.playerName ≠ b.playerName :=
        fun h => hneq (name_injective hnd ha' hb' h)
      simp only at hab
      rcases better_trichotomy hname with h | h
      · have := nBetter_lt_of_better hnd ha' h
        omega
      · have := nBetter_lt_of_better hnd hb' h
        omega
    have himg : t.toFinset.image (fun e => 1 + (nBetter t e : Int)) ⊆
        Finset.Icc 1 (t.length : Int) := by
      intro x hx
      obtain ⟨e, he, rfl⟩ := Finset.mem_image.mp hx
      have hlt := nBetter_lt_length ht (List.mem_toFinset.mp he)
      rw [Finset.mem_Icc]
      omega
    have hcard : (t.toFinset.image (fun e => 1 + (nBetter t e : Int))).card
        = t.length := by
      rw [Finset.card_image_of_injOn hinj, List.toFinset_card_of_nodup ht]
    have hIcc : (Finset.Icc (1 : Int) (t.length : Int)).card = t.length := by
      rw [Int.card_Icc]
      simp
    have heq : t.toFinset.image (fun e => 1 + (nBetter t e : Int))
        = Finset.Icc 1 (t.length : Int) :=
      Finset.eq_of_subset_of_card_le himg (by rw [hcard, hIcc])
    have hk : k ∈ t.toFinset.image (fun e => 1 + (nBetter t e : Int)) := by
      rw [heq, Finset.mem_Icc]
      exact ⟨h1, h2⟩
    obtain ⟨e, he, hge⟩ := Finset.mem_image.mp hk
    refine ⟨e, List.mem_toFinset.mp he, ?_⟩
    rw [getPlayerRank_eq_nBetter
      (getPlayerScore_self hnd (List.mem_toFinset.mp he))]
    exact hge

/-- Witness for C5: on the table `[Alice ↦ 1000, Bob ↦ 800]` (distinct names
discharged concretely) some player has rank 2, and Bob's rank satisfies the
claimed counting formula. -/
theorem rank_formula_dense_deterministic_witness :
    (∃ e ∈ ([⟨"Alice", 1000, 1⟩, ⟨"Bob", 800, 2⟩] : List Score),
      getPlayerRank [⟨"Alice", 1000, 1⟩, ⟨"Bob", 800, 2⟩] e.playerName = 2) ∧
    getPlayerRank [⟨"Alice", 1000, 1⟩, ⟨"Bob", 800, 2⟩] "Bob" =
      1 + ((([⟨"Alice", 1000, 1⟩, ⟨"Bob", 800, 2⟩] : List Score).filter
        (fun q => decide ((800 : Int) < q.score ∨
          (q.score = 800 ∧ q.playerName < "Bob")))).length : Int) := by
  obtain ⟨hformula, -, hdense⟩ := rank_formula_dense_deterministic
    [⟨"Alice", 1000, 1⟩, ⟨"Bob", 800, 2⟩] (by decide)
  refine ⟨hdense 2 (by decide) (by norm_num), ?_⟩
  exact (hformula "Bob" ⟨"Bob", 800, 2⟩ (by decide)).1

/-- `pb.LeaderboardUpdate_Kind` (protobuf): SNAPSHOT, UPSERT or DELETE. -/
inductive UpdateKind where
  | SNAPSHOT
  | UPSERT
  | DELETE
  deriving Repr, DecidableEq

/-- A delta `pb.LeaderboardUpdate` as built by `broadcastNotifications`:
`{kind, changed}`, where `changed.updatedAt` is the best-effort broadcast
time (`time.Now()`), not the commit timestamp. -/
structure LeaderboardUpdate where
  kind : UpdateKind
  changed : Score
  deriving Repr, DecidableEq

/-- `notify.ScoreChange` (listener.go): the parsed notification payload. -/
structure ScoreChange where
  playerName : String
  score : Int
  op : String
  deriving Repr, DecidableEq

/-- A subscriber mailbox: the buffered channel
`make(chan *pb.LeaderboardUpdate, 50)` created by `StreamLeaderboard`;
`cap` is its capacity and `buf` its queued updates, oldest first. -/
structure Mailbox where
  cap : Nat
  buf : List LeaderboardUpdate
  deriving Repr, DecidableEq

/-- The non-blocking `select { case ch <- update: ...; default: ... }` of
`Server.broadcast`: enqueue when the channel has room, otherwise leave the
mailbox unchanged and report failure. -/
def trySend (u : LeaderboardUpdate) (m : Mailbox) : Mailbox × Bool :=
  if m.buf.length < m.cap then ({ m with buf := m.buf ++ [u] }, true)
  else (m, false)

/-- `Server.broadcast` (gRPC server): a non-blocking send of the update to
every registered subscriber channel.  Returns the new mailboxes, the
`successCount` of delivered sends, and the number of `subscriber channel full,
skipping update` warnings logged (one per dropped subscriber).  The `Server`
struct keeps no other per-subscriber state than the channels themselves. -/
def broadcast (u : LeaderboardUpdate) (subs : List Mailbox) :
    List Mailbox × Nat × Nat :=
  (subs.map (fun m => (trySend u m).1),
   subs.countP (fun m => (trySend u m).2),
   subs.countP (fun m => !(trySend u m).2))

/-- The `op` switch of `Server.broadcastNotifications`: `insert` and `update`
map to UPSERT, `delete` to DELETE; any other value is logged and skipped. -/
def opKind (op : String) : Option UpdateKind :=
  match op with
  | "insert" => some .UPSERT
  | "update" => some .UPSERT
  | "delete" => some .DELETE
  | _ => none

/-- One iteration of `Server.broadcastNotifications` for one change
notification, at broadcast time `now`: map the op, build the update, broadcast
it; an unknown op broadcasts nothing. -/
def broadcastNotificationStep (c : ScoreChange) (now : Nat)
    (subs : List Mailbox) : List Mailbox × Nat × Nat :=
  match opKind c.op with
  | none => (subs, 0, 0)
  | some k => broadcast ⟨k, ⟨c.playerName, c.score, now⟩⟩ subs

/-- Modelled from the spec: §4.3's per-subscriber state holding the drop
counter that the spec requires — "If the mailbox is full, the update is
dropped for that subscriber and an increment is recorded on a per-subscriber
drop counter."  No such state exists in the code: the `Server` struct keeps
only `subscribers map[chan *pb.LeaderboardUpdate]struct{}`.  The definition
exists solely to state, and refute, what the claim requires of the code. -/
structure SpecSubscriber where
  mailbox : Mailbox
  dropCount : Nat
  deriving Repr, DecidableEq

/-- Modelled from the spec: the fan-out of §4.3, which increments the
subscriber's drop counter on every full-mailbox drop. -/
def specBroadcast (u : LeaderboardUpdate) (subs : List SpecSubscriber) :
    List SpecSubscriber :=
  subs.map (fun s =>
    let r := trySend u s.mailbox
    { mailbox := r.1, dropCount := s.dropCount + (if r.2 then 0 else 1) })

/-- C4, counterexample.  Broadcasting to a single subscriber whose capacity-50
mailbox is full: the code drops the update and leaves the whole per-subscriber
state — the mailbox, the only per-subscriber state the server keeps —
bit-for-bit unchanged, recording nothing beyond a warning log; the spec-side
model, by contrast, must step that subscriber's drop counter from 0 to 1.
Hence no "per-subscriber drop counter is incremented" by the code. -/
theorem broadcaster_no_drop_counter_counterexample :
    broadcast ⟨.UPSERT, ⟨"Alice", 500, 7⟩⟩
        [⟨50, List.replicate 50 ⟨.UPSERT, ⟨"Bob", 1, 0⟩⟩⟩] =
      ([⟨50, List.replicate 50 ⟨.UPSERT, ⟨"Bob", 1, 0⟩⟩⟩], 0, 1) ∧
    specBroadcast ⟨.UPSERT, ⟨"Alice", 500, 7⟩⟩
        [⟨⟨50, List.replicate 50 ⟨.UPSERT, ⟨"Bob", 1, 0⟩⟩⟩, 0⟩] =
      [⟨⟨50, List.replicate 50 ⟨.UPSERT, ⟨"Bob", 1, 0⟩⟩⟩, 1⟩] := by
  constructor <;> decide

/-- C4 (amended).  The broadcaster maps `insert`/`update` to UPSERT and
`delete` to DELETE, skips (without broadcasting) events with any other op, and
attempts an independent non-blocking enqueue on every registered mailbox: a
mailbox with room receives the update appended, a full mailbox is left
unchanged — the update is dropped for that subscriber only, the others still
receive it — and one warning is logged per dropped subscriber; no
per-subscriber drop counter is maintained. -/
theorem broadcaster_maps_and_drops (c : ScoreChange) (now : Nat)
    (subs : List Mailbox) :
    (opKind "insert" = some .UPSERT ∧ opKind "update" = some .UPSERT ∧
      opKind "delete" = some .DELETE ∧ opKind "upsert" = none) ∧
    (opKind c.op = none → broadcastNotificationStep c now subs = (subs, 0, 0)) ∧
    (∀ k, opKind c.op = some k →
      (broadcastNotificationStep c now subs).1 =
        subs.map (fun m =>
          if m.buf.length < m.cap then
            { m with buf := m.buf ++ [⟨k, ⟨c.playerName, c.score, now⟩⟩] }
          else m) ∧
      (broadcastNotificationStep c now subs).2.2 =
        subs.countP (fun m => !decide (m.buf.length < m.cap))) := by
  refine ⟨⟨rfl, rfl, rfl, rfl⟩, ?_, ?_⟩
  · intro h
    unfold broadcastNotificationStep
    rw [h]
  · intro k hk
    unfold broadcastNotificationStep
    rw [hk]
    constructor
    · show subs.map (fun m =>
        (trySend ⟨k, ⟨c.playerName, c.score, now⟩⟩ m).1) = _
      apply List.map_congr_left
      intro m _
      unfold trySend
      split <;> rfl
    · show subs.countP (fun m =>
        !(trySend ⟨k, ⟨c.playerName, c.score, now⟩⟩ m).2) = _
      apply List.countP_congr
      intro m _
      unfold trySend
      split <;> simp_all

/-- Witness for C4 (amended): a concrete step with op `update` and two
subscribers, one with room and one full, and a skipped unknown op. -/
theorem broadcaster_maps_and_drops_witness :
    (broadcastNotificationStep ⟨"Alice", 500, "update"⟩ 7
        [⟨2, []⟩, ⟨1, [⟨.UPSERT, ⟨"Bob", 1, 0⟩⟩]⟩]).1 =
      [⟨2, [⟨.UPSERT, ⟨"Alice", 500, 7⟩⟩]⟩, ⟨1, [⟨.UPSERT, ⟨"Bob", 1, 0⟩⟩]⟩] ∧
    broadcastNotificationStep ⟨"Alice", 500, "truncate"⟩ 7 [⟨2, []⟩] =
      ([⟨2, []⟩], 0, 0) := by
  constructor
  · rw [(broadcaster_maps_and_drops ⟨"Alice", 500, "update"⟩ 7
      [⟨2, []⟩, ⟨1, [⟨.UPSERT, ⟨"Bob", 1, 0⟩⟩]⟩]).2.2 .UPSERT (by decide) |>.1]
    decide
  · exact (broadcaster_maps_and_drops ⟨"Alice", 500, "truncate"⟩ 7
      [⟨2, []⟩]).2.1 (by decide)

/-- Capacity of the listener's buffered change channel (listener.go:
`make(chan ScoreChange, 100)`). -/
def changeChanCap : Nat := 100

/-- Capacity of the listener's error channel (listener.go:
`make(chan error, 10)`). -/
def errChanCap : Nat := 10

/-- The observable state of `notify.Listener`: the buffered change and error
channels, whether the LISTEN connection is currently held, and the reconnect
backoff in seconds. -/
structure ListenerState where
  changeChan : List ScoreChange
  errChan : List String
  connOpen : Bool
  backoffSec : Nat
  deriving Repr, DecidableEq

/-- `Listener.sendError` (listener.go): non-blocking send onto the error
channel; when it is full the error is logged and dropped. -/
def sendError (st : ListenerState) (e : String) : ListenerState :=
  if st.errChan.length < errChanCap then
    { st with errChan := st.errChan ++ [e] }
  else st

/-- What one `WaitForNotification` call produced: either a read error, or a
notification payload together with the result of `json.Unmarshal` on it. -/
inductive ReadEvent where
  | readError (msg : String)
  | notification (parsed : Except String ScoreChange)
  deriving Repr

/-- Control flow after one inner-loop iteration of `Listener.listen`. -/
inductive LoopAction where
  | continueListening
  | reconnect
  deriving Repr, DecidableEq

/-- One iteration of the inner notification loop of `Listener.listen`
(listener.go lines 97–141): a read error releases the connection, pushes the
error onto the error channel and breaks to the reconnect path; a payload that
fails to unmarshal is logged and skipped with `continue` — the state,
the error channel included, is untouched; a parsed change is forwarded to the
change channel if it gains room within the 1 s timeout, else dropped with a
warning. -/
def listenStep (st : ListenerState) (ev : ReadEvent) :
    ListenerState × LoopAction :=
  match ev with
  | .readError msg =>
      (sendError { st with connOpen := false } msg, .reconnect)
  | .notification (.error _) => (st, .continueListening)
  | .notification (.ok change) =>
      if st.changeChan.length < changeChanCap then
        ({ st with changeChan := st.changeChan ++ [change] },
          .continueListening)
      else (st, .continueListening)

/-- Outcome of one outer-loop connection attempt of `Listener.listen`
(`pool.Acquire` then `LISTEN scores_changes`). -/
inductive ConnectAttempt where
  | acquireFail (msg : String)
  | listenFail (msg : String)
  | connected
  deriving Repr, DecidableEq

/-- One iteration of the outer loop of `Listener.listen` (listener.go lines
62–95): a failed acquire or a failed LISTEN pushes the error, sleeps for the
current backoff and doubles it up to the 60 s ceiling; a successful
subscription resets the backoff to 1 s and holds the connection. -/
def connectStep (st : ListenerState) (a : ConnectAttempt) : ListenerState :=
  match a with
  | .acquireFail msg =>
      let st' := sendError st msg
      { st' with connOpen := false, backoffSec := min (st.backoffSec * 2) 60 }
  | .listenFail msg =>
      let st' := sendError st msg
      { st' with connOpen := false, backoffSec := min (st.backoffSec * 2) 60 }
  | .connected => { st with connOpen := true, backoffSec := 1 }

/-- C9, counterexample.  With the connection open and both channels empty,
reading a notification whose payload fails to parse leaves the listener state
bit-for-bit unchanged and continues the loop: in particular the errors stream
stays empty — no error is emitted onto it, only a log line is written —
refuting the claim that a parse failure "emits an error onto its errors
stream".  (`Listener.sendError` is reached only from the acquire, LISTEN and
read failure paths.) -/
theorem listener_parse_error_counterexample :
    listenStep ⟨[], [], true, 1⟩ (.notification (.error "invalid json")) =
      (⟨[], [], true, 1⟩, .continueListening) ∧
    (listenStep ⟨[], [], true, 1⟩
        (.notification (.error "invalid json"))).1.errChan = [] := by
  exact ⟨rfl, rfl⟩

/-- C9 (amended).  A malformed payload is dropped and the loop continues with
the connection still open and the whole state — the errors stream included —
unchanged (the parse failure is only logged); the connection is torn down and
the backoff-reconnect path taken only on read failures, which release the
connection and emit the error onto the errors stream (when it has room), while
acquire and LISTEN failures likewise emit the error and double the backoff up
to the 60 s ceiling, reset to 1 s once a subscription succeeds. -/
theorem listener_parse_skip_and_reconnect_on_failures
    (st : ListenerState) (msg : String) (c : ScoreChange) :
    listenStep st (.notification (.error msg)) = (st, .continueListening) ∧
    (listenStep st (.readError msg)).2 = .reconnect ∧
    (listenStep st (.readError msg)).1.connOpen = false ∧
    (st.errChan.length < errChanCap →
      (listenStep st (.readError msg)).1.errChan = st.errChan ++ [msg]) ∧
    (listenStep st (.notification (.ok c))).2 = .continueListening ∧
    (listenStep st (.notification (.ok c))).1.connOpen = st.connOpen ∧
    (listenStep st (.notification (.ok c))).1.errChan = st.errChan ∧
    (connectStep st (.acquireFail msg)).backoffSec =
      min (st.backoffSec * 2) 60 ∧
    (connectStep st (.listenFail msg)).backoffSec =
      min (st.backoffSec * 2) 60 ∧
    (st.errChan.length < errChanCap →
      (connectStep st (.acquireFail msg)).errChan = st.errChan ++ [msg]) ∧
    (connectStep st .connected).backoffSec = 1 ∧
    (connectStep st .connected).connOpen = true := by
  refine ⟨rfl, rfl, ?_, ?_, ?_, ?_, ?_, rfl, rfl, ?_, rfl, rfl⟩
  · show (sendError { st with connOpen := false } msg).connOpen = false
    unfold sendError
    split <;> rfl
  · intro h
    show (sendError { st with connOpen := false } msg).errChan
      = st.errChan ++ [msg]
    have h' : ({ st with connOpen := false } :
        ListenerState).errChan.length < errChanCap := h
    unfold sendError
    rw [if_pos h']
  · show (listenStep st (.notification (.ok c))).2 = .continueListening
    simp only [listenStep]
    split <;> rfl
  · show (listenStep st (.notification (.ok c))).1.connOpen = st.connOpen
    simp only [listenStep]
    split <;> rfl
  · show (listenStep st (.notification (.ok c))).1.errChan = st.errChan
    simp only [listenStep]
    split <;> rfl
  · intro h
    show (sendError st msg).errChan = st.errChan ++ [msg]
    unfold sendError
    rw [if_pos h]

/-- Witness for C9 (amended): a concrete state with room in the error channel,
exercising the parse-skip, the read-error reconnect and the backoff doubling. -/
theorem listener_parse_skip_and_reconnect_on_failures_witness :
    listenStep ⟨[], [], true, 1⟩ (.notification (.error "bad payload")) =
      (⟨[], [], true, 1⟩, .continueListening) ∧
    (listenStep ⟨[], [], true, 1⟩ (.readError "conn reset")).1.errChan =
      [] ++ ["conn reset"] ∧
    (connectStep ⟨[], [], false, 2⟩ (.acquireFail "pool dry")).backoffSec =
      min (2 * 2) 60 := by
  obtain ⟨hskip, -, -, hread, -, -, -, -, -, -, -, -⟩ :=
    listener_parse_skip_and_reconnect_on_failures ⟨[], [], true, 1⟩
      "conn reset" ⟨"Alice", 1, "insert"⟩
  obtain ⟨-, -, -, -, -, -, -, hback, -, -, -, -⟩ :=
    listener_parse_skip_and_reconnect_on_failures ⟨[], [], false, 2⟩
      "pool dry" ⟨"Alice", 1, "insert"⟩
  exact ⟨hskip ▸ rfl, hread (by decide), hback⟩

end Leaderboard
